import Mathlib

/-!
Verification of the POSIX IPC message-queue and named-semaphore subsystem
(winsup/cygwin/posix_ipc.cc) against its natural-language specification.

The shared segment is embedded as an arena of message slots addressed by
nonzero indices (index 0 is the end-of-list marker, as in the source, where
indices are byte offsets into the mapped file).  The free list and the
priority-ordered active list are threaded through the slots' msg_next
fields, exactly as in the source.  Blocking waits are embedded by a wake
oracle: a list of wake events, each carrying the wait result code and the
effect other processes had on the shared state while this caller slept.
-/

/- ===== errno values (newlib) ===== -/

def EINTR : Nat := 4
def EBADF : Nat := 9
def EAGAIN : Nat := 11
def EINVAL : Nat := 22
def ETIMEDOUT : Nat := 116
def EMSGSIZE : Nat := 122

/-- Modelled from the spec: "priority must be below the configured maximum,
else invalid-argument".  The numeric bound lives in a header outside the
provided sources; its exact value is irrelevant to the claims. -/
def MQ_PRIO_MAX : Nat := 32768

/-- sigev_notify value selecting signal delivery (SIGEV_SIGNAL). -/
def SIGEV_SIGNAL : Nat := 0

/-- O_NONBLOCK flag bit (0x4000). -/
def O_NONBLOCK : Nat := 16384

/- ===== data model: struct msg_hdr, struct mq_hdr ===== -/

/-- One message slot: `struct msg_hdr` plus the payload bytes that follow it
in the mapped file.  `msg_next` is the index of the next slot on whichever
list (free or active) this slot is on; 0 marks the end of the list. -/
structure msg_hdr where
  msg_next : Nat
  msg_len  : Nat
  msg_prio : Nat
  payload  : List Nat
deriving DecidableEq

/-- The slot arena: a total map from slot index to slot contents.  Indices
outside the arena are junk the code never reads on well-formed states. -/
abbrev Slots := Nat → msg_hdr

/-- Write one slot of the arena. -/
def setSlot (s : Slots) (i : Nat) (m : msg_hdr) : Slots :=
  fun j => if j = i then m else s j

/-- Notification registration payload (`struct sigevent`, the parts the
queue code reads). -/
structure sigevent where
  sigev_notify : Nat
  sigev_signo  : Nat
deriving DecidableEq

/-- The shared-segment header `struct mq_hdr` together with its embedded
`mq_fattr` attributes and the slot arena that follows it in the file.
Counts and configured sizes are C `long`/`int32_t` values, embedded as
`Int`. -/
structure mq_hdr where
  mq_maxmsg  : Int
  mq_msgsize : Int
  mq_curmsgs : Int
  mqh_nwait  : Nat
  mqh_pid    : Nat
  mqh_event  : sigevent
  mqh_head   : Nat
  mqh_free   : Nat
  slots      : Slots

/-- POSIX `struct mq_attr` as handed to/returned from mq_open, mq_getattr,
mq_setattr.  `mq_flags` is a bitmask, the remaining fields are C longs. -/
structure mq_attr where
  mq_flags   : Nat
  mq_maxmsg  : Int
  mq_msgsize : Int
  mq_curmsgs : Int
deriving DecidableEq

/-- `struct mq_attr defattr = { 0, 10, 8192, 0 }` — the Linux-compatible
defaults used when mq_open creates a queue with a NULL attr pointer. -/
def defattr : mq_attr := { mq_flags := 0, mq_maxmsg := 10, mq_msgsize := 8192, mq_curmsgs := 0 }

/- ===== queue initialization (creation path of mq_open) ===== -/

/-- The slot arena as laid out by mq_open's initialization loop: slot j
links to slot j+1, the last slot (index = capacity) ends the list.
Message bodies are uninitialized; they are embedded as zeros since the
code never reads a slot body before writing it. -/
def initSlots (cap : Int) : Slots :=
  fun j => { msg_next := if (j : Int) < cap then j + 1 else 0
             msg_len := 0, msg_prio := 0, payload := [] }

/-- The header exactly as mq_open's creation path initializes it: all
counters zero, empty active list, free list holding every slot starting at
slot 1.  The notification sigevent is indeterminate until a registration
stores one; it is embedded as an inert non-signal value. -/
def initState (cap msz : Int) : mq_hdr :=
  { mq_maxmsg := cap, mq_msgsize := msz, mq_curmsgs := 0
    mqh_nwait := 0, mqh_pid := 0, mqh_event := { sigev_notify := 1, sigev_signo := 0 }
    mqh_head := 0, mqh_free := 1, slots := initSlots cap }

/-- The creation slice of mq_open that the attribute claims are about: a
NULL attr pointer (embedded as `none`) selects `defattr` with no range
check; a caller-supplied attr is range-checked (capacity 1..32768, message
size 1..1048576) and rejected with EINVAL when out of range. -/
def mq_open_create (attr : Option mq_attr) : Except Nat mq_hdr :=
  match attr with
  | none => .ok (initState defattr.mq_maxmsg defattr.mq_msgsize)
  | some a =>
      if a.mq_maxmsg ≤ 0 ∨ 32768 < a.mq_maxmsg
         ∨ a.mq_msgsize ≤ 0 ∨ 1048576 < a.mq_msgsize then
        .error EINVAL
      else .ok (initState a.mq_maxmsg a.mq_msgsize)

/-- Capacity and message size of a successfully created queue. -/
def createdAttrs (attr : Option mq_attr) : Option (Int × Int) :=
  match mq_open_create attr with
  | .ok st => some (st.mq_maxmsg, st.mq_msgsize)
  | .error _ => none

/- ===== _mq_send ===== -/

/-- Result of a send: `success` carries the new segment state, whether a
notification was delivered (sigqueue fired) and whether the not-empty
condition was signalled; `error` carries the errno and the untouched
state; `wouldBlockWait` is the blocking wait on a full queue;
`fatalCorruption` is api_fatal (process termination, never a returned
error). -/
inductive SendResult where
  | success (st : mq_hdr) (notified : Bool) (signalledRecv : Bool)
  | error (e : Nat) (st : mq_hdr)
  | wouldBlockWait (st : mq_hdr)
  | fatalCorruption (st : mq_hdr)

/-- The insertion walk of _mq_send's while loop, in recursive form: given
the head of the (sub)chain, return the updated arena and the new head of
that subchain.  The new node's msg_next and the previous node's msg_next
are written exactly where the loop writes them; when the insertion point
lies deeper, the parent link is rewritten with its unchanged value (the
loop's pmsghdr bookkeeping).  The fuel bounds the walk; callers pass
capacity + 1, which exceeds any well-formed active-list length. -/
def msqInsert (s : Slots) (newidx prio : Nat) : Nat → Nat → Slots × Nat
  | _, 0 => (setSlot s newidx { s newidx with msg_next := 0 }, newidx)
  | 0, _+1 => (s, 0)
  | fuel+1, i+1 =>
      if (s (i+1)).msg_prio < prio then
        (setSlot s newidx { s newidx with msg_next := i+1 }, newidx)
      else
        let r := msqInsert s newidx prio fuel (s (i+1)).msg_next
        (setSlot r.1 (i+1) { r.1 (i+1) with msg_next := r.2 }, i+1)

/-- The allocate-stamp-insert tail of _mq_send, entered with the checks
passed: pop the free-list head (api_fatal if the free list is empty),
stamp priority/length/payload, link it into the active list before the
first strictly-lower-priority node, signal the not-empty condition when
the queue was empty, and increment the live count. -/
def sendInsert (st : mq_hdr) (notified : Bool) (payload : List Nat) (prio : Nat) : SendResult :=
  if st.mqh_free = 0 then .fatalCorruption st
  else
    let freeindex := st.mqh_free
    let nm := st.slots freeindex
    let s1 := setSlot st.slots freeindex
                { nm with msg_prio := prio, msg_len := payload.length, payload := payload }
    let r := msqInsert s1 freeindex prio (st.mq_maxmsg.toNat + 1) st.mqh_head
    .success { st with slots := r.1, mqh_free := nm.msg_next, mqh_head := r.2
                       mq_curmsgs := st.mq_curmsgs + 1 }
      notified (st.mq_curmsgs == 0)

/-- _mq_send after descriptor validation, with the object mutex held.
`nonblock` is the descriptor's O_NONBLOCK mode (mqi_flags).  On an empty
queue with a registration present and no waiting receiver, the
registration is consumed before the message is enqueued (sigqueue fires
only for a SIGEV_SIGNAL registration, the pid is cleared regardless). -/
def _mq_send (st : mq_hdr) (nonblock : Bool) (payload : List Nat) (prio : Nat) : SendResult :=
  if MQ_PRIO_MAX ≤ prio then .error EINVAL st
  else if st.mq_msgsize < (payload.length : Int) then .error EMSGSIZE st
  else if st.mq_curmsgs = 0 then
    if st.mqh_pid ≠ 0 ∧ st.mqh_nwait = 0 then
      sendInsert { st with mqh_pid := 0 }
        (st.mqh_event.sigev_notify == SIGEV_SIGNAL) payload prio
    else sendInsert st false payload prio
  else if st.mq_maxmsg ≤ st.mq_curmsgs then
    if nonblock then .error EAGAIN st else .wouldBlockWait st
  else sendInsert st false payload prio

/- ===== _mq_receive ===== -/

/-- One wake-up from ipc_cond_timedwait inside _mq_receive's wait loop:
`res` is the wait's return code (0 = signalled, else errno such as
ETIMEDOUT or EINTR) and `eff` is the net effect other processes had on the
shared segment while the caller slept (the wait reacquires the mutex
before returning, so the caller observes their completed updates). -/
inductive WakeEv where
  | wake (res : Nat) (eff : mq_hdr → mq_hdr)

/-- Outcome of _mq_receive's `while (mq_curmsgs == 0)` wait loop. -/
inductive RecvWaitOut where
  | noMoreWakes (st : mq_hdr)
  | waitError (e : Nat) (st : mq_hdr)
  | ready (st : mq_hdr)

/-- The wait loop itself: each wake applies the concurrent effect, a
nonzero wait result aborts the loop (the source then leaves the function),
a zero result re-checks the emptiness predicate. -/
def recvWaitLoop : mq_hdr → List WakeEv → RecvWaitOut
  | st, [] => .noMoreWakes st
  | st, WakeEv.wake res eff :: rest =>
      let st' := eff st
      if res ≠ 0 then .waitError res st'
      else if st'.mq_curmsgs = 0 then recvWaitLoop st' rest
      else .ready st'

/-- Result of a receive: `success` carries the new state, the copied
payload and its priority, and whether the not-full condition was
signalled; `stuck` is a blocked receive with no wake event (the caller
sleeps indefinitely); `fatalCorruption` is api_fatal. -/
inductive RecvResult where
  | success (st : mq_hdr) (out : List Nat) (prio : Nat) (signalledSend : Bool)
  | error (e : Nat) (st : mq_hdr)
  | stuck (st : mq_hdr)
  | fatalCorruption (st : mq_hdr)

/-- The head-pop tail of _mq_receive, entered with a message known to be
pending: api_fatal if the active list is empty, else unlink the head,
copy out its payload and priority, push the slot onto the free list,
signal the not-full condition if the queue was full, and decrement the
live count. -/
def recvPop (st : mq_hdr) : RecvResult :=
  if st.mqh_head = 0 then .fatalCorruption st
  else
    let index := st.mqh_head
    let m := st.slots index
    let s1 := setSlot st.slots index { m with msg_next := st.mqh_free }
    .success { st with slots := s1, mqh_head := m.msg_next, mqh_free := index
                       mq_curmsgs := st.mq_curmsgs - 1 }
      m.payload m.msg_prio (st.mq_curmsgs == st.mq_maxmsg)

/-- _mq_receive after descriptor validation, with the object mutex held.
On an empty queue in blocking mode the waiting-receiver count mqh_nwait is
incremented before the wait; the source decrements it only after the loop
exits normally — a nonzero wait result leaves the function with the
incremented count (mirrored faithfully here). -/
def _mq_receive (st : mq_hdr) (nonblock : Bool) (maxlen : Nat) (oracle : List WakeEv) : RecvResult :=
  if (maxlen : Int) < st.mq_msgsize then .error EMSGSIZE st
  else if st.mq_curmsgs = 0 then
    if nonblock then .error EAGAIN st
    else
      match recvWaitLoop { st with mqh_nwait := st.mqh_nwait + 1 } oracle with
      | .noMoreWakes st' => .stuck st'
      | .waitError e st' => .error e st'
      | .ready st' => recvPop { st' with mqh_nwait := st'.mqh_nwait - 1 }
  else recvPop st

/- ===== result projections ===== -/

/-- New segment state of a successful send. -/
def sendStateOf : SendResult → Option mq_hdr
  | .success st _ _ => some st
  | _ => none

/-- Whether a send result is the api_fatal corruption diagnostic. -/
def sendIsFatal : SendResult → Bool
  | .fatalCorruption _ => true
  | _ => false

/-- Notification-delivered flag of a successful send. -/
def sendNotifyOf : SendResult → Option Bool
  | .success _ n _ => some n
  | _ => none

/-- Registered pid after a successful send. -/
def sendPidOf : SendResult → Option Nat
  | .success st _ _ => some st.mqh_pid
  | _ => none

/-- New segment state of a successful receive. -/
def recvStateOf : RecvResult → Option mq_hdr
  | .success st _ _ _ => some st
  | _ => none

/-- Whether a receive result is the api_fatal corruption diagnostic. -/
def recvIsFatal : RecvResult → Bool
  | .fatalCorruption _ => true
  | _ => false

/-- Errno of a receive that failed. -/
def recvErrOf : RecvResult → Option Nat
  | .error e _ => some e
  | _ => none

/-- The segment state any receive result leaves behind. -/
def recvStOf : RecvResult → mq_hdr
  | .success st _ _ _ => st
  | .error _ st => st
  | .stuck st => st
  | .fatalCorruption st => st

/-- Copied-out payload and priority of a successful receive. -/
def recvOutOf : RecvResult → Option (List Nat × Nat)
  | .success _ out prio _ => some (out, prio)
  | _ => none

/- ===== mq_getattr / mq_setattr ===== -/

/-- mq_getattr under the lock: the per-descriptor mqi_flags combined with
the per-queue capacity, message size and live count. -/
def mq_getattr (st : mq_hdr) (mqi_flags : Nat) : mq_attr :=
  { mq_flags := mqi_flags, mq_maxmsg := st.mq_maxmsg
    mq_msgsize := st.mq_msgsize, mq_curmsgs := st.mq_curmsgs }

/-- mq_setattr under the lock: optionally snapshot the previous attributes
(the omqstat out-parameter, present when `wantOld`), then set or clear the
descriptor's O_NONBLOCK bit according to mqstat.  The header is never
written; `&&& (4294967295 ^^^ O_NONBLOCK)` is the 32-bit `& ~O_NONBLOCK`.
Returns (header, new mqi_flags, snapshot). -/
def mq_setattr (st : mq_hdr) (mqi_flags : Nat) (mqstat : mq_attr) (wantOld : Bool) :
    mq_hdr × Nat × Option mq_attr :=
  let old := if wantOld then some (mq_getattr st mqi_flags) else none
  let newFlags :=
    if mqstat.mq_flags &&& O_NONBLOCK ≠ 0 then mqi_flags ||| O_NONBLOCK
    else mqi_flags &&& (4294967295 ^^^ O_NONBLOCK)
  (st, newFlags, old)

/- ===== ipc_cond_timedwait ===== -/

/-- An absolute deadline (`struct timespec`). -/
structure timespec where
  tv_sec  : Int
  tv_nsec : Int
deriving DecidableEq

/-- Modelled from the spec: a malformed deadline is an invalid timespec.
The validity helper is declared outside the provided sources; the spec's
notion of well-formedness is a nanosecond field within one second. -/
abbrev valid_timespec (ts : timespec) : Prop :=
  0 ≤ ts.tv_nsec ∧ ts.tv_nsec < 1000000000

/-- Observable effects of one ipc_cond_timedwait call: its return code,
whether a waitable timer was created, whether ResetEvent ran on the
condition event, and whether the mutex was released for the wait. -/
structure CondWaitTrace where
  ret : Nat
  timerCreated : Bool
  eventReset : Bool
  mutexReleased : Bool
deriving DecidableEq

/-- The shared tail of ipc_cond_timedwait after deadline validation and
timer setup: reset the event, release the mutex, wait, reacquire.
`unlockErr`, `waitRes` and `relockRes` are the environment's outcomes for
the three fallible steps (0 = success). -/
def condWaitBody (timerCreated : Bool) (unlockErr waitRes relockRes : Nat) : CondWaitTrace :=
  if unlockErr ≠ 0 then
    { ret := unlockErr, timerCreated := timerCreated, eventReset := true, mutexReleased := false }
  else if waitRes ≠ 0 then
    { ret := waitRes, timerCreated := timerCreated, eventReset := true, mutexReleased := true }
  else
    { ret := relockRes, timerCreated := timerCreated, eventReset := true, mutexReleased := true }

/-- ipc_cond_timedwait: an absolute deadline, when supplied, is validated
before the event is reset, before the mutex is released, and before any
timer is created; an invalid deadline returns EINVAL with nothing touched.
`timerErr` is the environment's outcome for timer creation/arming.  The
function never reads or writes the mq_hdr segment at all. -/
def ipc_cond_timedwait (abstime : Option timespec) (timerErr unlockErr waitRes relockRes : Nat) :
    CondWaitTrace :=
  match abstime with
  | some ts =>
      if valid_timespec ts then
        if timerErr ≠ 0 then
          { ret := timerErr, timerCreated := false, eventReset := false, mutexReleased := false }
        else condWaitBody true unlockErr waitRes relockRes
      else
        { ret := EINVAL, timerCreated := false, eventReset := false, mutexReleased := false }
  | none => condWaitBody false unlockErr waitRes relockRes

/- ===== _sem_close ===== -/

/-- Observable effects of one _sem_close call: its return value, whether
semaphore::close ran on the in-memory object, whether the record's
advisory lock was released and whether the backing fd was closed. -/
structure SemCloseTrace where
  ret : Int
  semClosed : Bool
  unlocked : Bool
  fdClosed : Bool
deriving DecidableEq

/-- _sem_close: fetch the live value (environment outcome `getinternalOk`),
then under the advisory lock seek and flush it back to the record; the
in-memory semaphore is closed (when `do_close`) only if lock, seek and
write all succeeded, else -1 is returned with the object left open.  The
lock is released and the fd closed on every path past getinternal. -/
def _sem_close (getinternalOk lockOk seekOk writeOk do_close : Bool) (closeRes : Int) :
    SemCloseTrace :=
  if !getinternalOk then { ret := -1, semClosed := false, unlocked := false, fdClosed := false }
  else
    let flushed := lockOk && seekOk && writeOk
    let retClosed : Int × Bool :=
      if flushed then (if do_close then (closeRes, true) else (0, false))
      else (-1, false)
    { ret := retClosed.1, semClosed := retClosed.2, unlocked := true, fdClosed := true }

/- ===== list-structure invariant of the shared segment ===== -/

/-- Extract the index list of a chain threaded through msg_next fields,
starting at `h` and ending at index 0; `none` when the chain does not
reach 0 within `fuel` steps.  A well-formed chain over a capacity-`n`
arena has length at most `n`, so fuel `n` always suffices. -/
def chainListOpt (s : Slots) : Nat → Nat → Option (List Nat)
  | _, 0 => some []
  | 0, _+1 => none
  | fuel+1, i+1 => (chainListOpt s fuel (s (i+1)).msg_next).map (fun l => (i+1) :: l)

/-- The free list as laid out in the segment of `st`. -/
def freeL (st : mq_hdr) : Option (List Nat) :=
  chainListOpt st.slots st.mq_maxmsg.toNat st.mqh_free

/-- The active (pending-message) list as laid out in the segment of `st`. -/
def actL (st : mq_hdr) : Option (List Nat) :=
  chainListOpt st.slots st.mq_maxmsg.toNat st.mqh_head

/-- The structural header invariant, with the free and active lists made
explicit: both chains are well formed, the live count equals the active
length, the two lengths sum to the capacity, no slot is on both lists (or
twice on one), and every listed slot index lies inside the arena. -/
def InvL (st : mq_hdr) (fl al : List Nat) : Prop :=
  freeL st = some fl ∧ actL st = some al ∧
  (al.length : Int) = st.mq_curmsgs ∧
  (fl.length : Int) + (al.length : Int) = st.mq_maxmsg ∧
  (fl ++ al).Nodup ∧
  ∀ i ∈ fl ++ al, 1 ≤ i ∧ (i : Int) ≤ st.mq_maxmsg

instance instDecidableInvL (st : mq_hdr) (fl al : List Nat) : Decidable (InvL st fl al) := by
  unfold InvL; exact inferInstance

/-- Priority and payload of the slot at index i, as receive reports them. -/
def projMsg (st : mq_hdr) (i : Nat) : Nat × List Nat :=
  ((st.slots i).msg_prio, (st.slots i).payload)

/-- The queue contents in delivery order: the active list as
(priority, payload) pairs. -/
def msgsOf (st : mq_hdr) : Option (List (Nat × List Nat)) :=
  (actL st).map (List.map (projMsg st))

/-- The spec's description of the insertion point: the new message goes
immediately before the first node whose priority is strictly lower. -/
def specInsert (m : Nat × List Nat) : List (Nat × List Nat) → List (Nat × List Nat)
  | [] => [m]
  | x :: l => if x.1 < m.1 then m :: x :: l else x :: specInsert m l

/-- The index list msqInsert produces, at the list level: newidx lands
before the first strictly-lower-priority member. -/
def prioInsert (s : Slots) (prio newidx : Nat) : List Nat → List Nat
  | [] => [newidx]
  | i :: l => if (s i).msg_prio < prio then newidx :: i :: l else i :: prioInsert s prio newidx l

/- ===== chain lemmas ===== -/

theorem chainListOpt_nil (s : Slots) (fuel : Nat) : chainListOpt s fuel 0 = some [] := by
  cases fuel <;> rfl

theorem chainListOpt_cons_elim {s : Slots} {fuel h : Nat} {l : List Nat}
    (hc : chainListOpt s fuel h = some l) (hh : h ≠ 0) :
    ∃ fuel' l', fuel = fuel' + 1 ∧ l = h :: l' ∧
      chainListOpt s fuel' (s h).msg_next = some l' := by
  cases fuel with
  | zero =>
      cases h with
      | zero => exact absurd rfl hh
      | succ i => simp [chainListOpt] at hc
  | succ fuel' =>
      cases h with
      | zero => exact absurd rfl hh
      | succ i =>
          simp only [chainListOpt, Option.map_eq_some'] at hc
          obtain ⟨l', hl', rfl⟩ := hc
          exact ⟨fuel', l', rfl, rfl, hl'⟩

theorem chainListOpt_head {s : Slots} {fuel h x : Nat} {l : List Nat}
    (hc : chainListOpt s fuel h = some (x :: l)) : h = x := by
  by_cases hh : h = 0
  · subst hh; rw [chainListOpt_nil] at hc; cases hc
  · obtain ⟨fuel', l', _, heq, _⟩ := chainListOpt_cons_elim hc hh
    cases heq; rfl

theorem chainListOpt_nil_elim {s : Slots} {fuel h : Nat}
    (hc : chainListOpt s fuel h = some []) : h = 0 := by
  by_cases hh : h = 0
  · exact hh
  · obtain ⟨fuel', l', _, heq, _⟩ := chainListOpt_cons_elim hc hh
    cases heq

theorem chainListOpt_ne_zero {s : Slots} :
    ∀ {fuel h : Nat} {l : List Nat}, chainListOpt s fuel h = some l → ∀ i ∈ l, i ≠ 0 := by
  intro fuel
  induction fuel with
  | zero =>
      intro h l hc i hi
      cases h with
      | zero => rw [chainListOpt_nil] at hc; cases hc; cases hi
      | succ j => simp [chainListOpt] at hc
  | succ fuel ih =>
      intro h l hc i hi
      cases h with
      | zero => rw [chainListOpt_nil] at hc; cases hc; cases hi
      | succ j =>
          simp only [chainListOpt, Option.map_eq_some'] at hc
          obtain ⟨l', hl', rfl⟩ := hc
          rcases List.mem_cons.mp hi with hi | hi
          · subst hi; simp
          · exact ih hl' i hi

theorem chainListOpt_congr {s s' : Slots} :
    ∀ {fuel h : Nat} {l : List Nat}, (∀ j ∈ l, s' j = s j) →
      chainListOpt s fuel h = some l → chainListOpt s' fuel h = some l := by
  intro fuel
  induction fuel with
  | zero =>
      intro h l hagree hc
      cases h with
      | zero => rw [chainListOpt_nil] at hc ⊢; exact hc
      | succ j => simp [chainListOpt] at hc
  | succ fuel ih =>
      intro h l hagree hc
      cases h with
      | zero => rw [chainListOpt_nil] at hc ⊢; exact hc
      | succ j =>
          simp only [chainListOpt, Option.map_eq_some'] at hc ⊢
          obtain ⟨l', hl', rfl⟩ := hc
          have hs : s' (j+1) = s (j+1) := hagree _ (by simp)
          refine ⟨l', ?_, rfl⟩
          rw [hs]
          exact ih (fun k hk => hagree k (by simp [hk])) hl'

theorem chainListOpt_setSlot {s : Slots} {fuel h j : Nat} {l : List Nat} {m : msg_hdr}
    (hj : j ∉ l) (hc : chainListOpt s fuel h = some l) :
    chainListOpt (setSlot s j m) fuel h = some l := by
  refine chainListOpt_congr (fun k hk => ?_) hc
  have : k ≠ j := fun he => hj (he ▸ hk)
  simp [setSlot, this]

theorem chainListOpt_mono {s : Slots} :
    ∀ {fuel h : Nat} {l : List Nat} {fuel' : Nat}, chainListOpt s fuel h = some l →
      fuel ≤ fuel' → chainListOpt s fuel' h = some l := by
  intro fuel
  induction fuel with
  | zero =>
      intro h l fuel' hc _
      cases h with
      | zero => rw [chainListOpt_nil] at hc; rw [chainListOpt_nil]; exact hc
      | succ j => simp [chainListOpt] at hc
  | succ fuel ih =>
      intro h l fuel' hc hle
      cases h with
      | zero => rw [chainListOpt_nil] at hc; rw [chainListOpt_nil]; exact hc
      | succ j =>
          obtain ⟨fuel'', rfl⟩ : ∃ k, fuel' = k + 1 :=
            ⟨fuel' - 1, by omega⟩
          simp only [chainListOpt, Option.map_eq_some'] at hc ⊢
          obtain ⟨l', hl', rfl⟩ := hc
          exact ⟨l', ih hl' (by omega), rfl⟩

theorem chainListOpt_shrink {s : Slots} :
    ∀ {fuel h : Nat} {l : List Nat}, chainListOpt s fuel h = some l →
      chainListOpt s l.length h = some l := by
  intro fuel
  induction fuel with
  | zero =>
      intro h l hc
      cases h with
      | zero => rw [chainListOpt_nil] at hc; cases hc; rw [chainListOpt_nil]
      | succ j => simp [chainListOpt] at hc
  | succ fuel ih =>
      intro h l hc
      cases h with
      | zero => rw [chainListOpt_nil] at hc; cases hc; rw [chainListOpt_nil]
      | succ j =>
          simp only [chainListOpt, Option.map_eq_some'] at hc
          obtain ⟨l', hl', rfl⟩ := hc
          simp only [List.length_cons, chainListOpt, Option.map_eq_some']
          exact ⟨l', ih hl', rfl⟩

theorem chainListOpt_refuel {s : Slots} {fuel h : Nat} {l : List Nat} {fuel' : Nat}
    (hc : chainListOpt s fuel h = some l) (hle : l.length ≤ fuel') :
    chainListOpt s fuel' h = some l :=
  chainListOpt_mono (chainListOpt_shrink hc) hle

theorem chainListOpt_succ_succ (s : Slots) (fuel i : Nat) :
    chainListOpt s (fuel+1) (i+1)
      = (chainListOpt s fuel (s (i+1)).msg_next).map (fun l => (i+1) :: l) := rfl

/- ===== prioInsert lemmas ===== -/

theorem prioInsert_perm (s : Slots) (prio n : Nat) :
    ∀ l : List Nat, (prioInsert s prio n l).Perm (n :: l) := by
  intro l
  induction l with
  | nil => simp [prioInsert]
  | cons i l ih =>
      by_cases hc : (s i).msg_prio < prio
      · simp [prioInsert, hc]
      · simp only [prioInsert, if_neg hc]
        exact (ih.cons i).trans (List.Perm.swap n i l)

theorem prioInsert_length (s : Slots) (prio n : Nat) (l : List Nat) :
    (prioInsert s prio n l).length = l.length + 1 := by
  simpa using (prioInsert_perm s prio n l).length_eq

theorem prioInsert_mem (s : Slots) (prio n : Nat) (l : List Nat) (j : Nat) :
    j ∈ prioInsert s prio n l ↔ j = n ∨ j ∈ l := by
  rw [(prioInsert_perm s prio n l).mem_iff]; simp

theorem prioInsert_nodup (s : Slots) (prio n : Nat) (l : List Nat)
    (h : (n :: l).Nodup) : (prioInsert s prio n l).Nodup :=
  (prioInsert_perm s prio n l).symm.nodup h

/- ===== msqInsert step equations ===== -/

theorem msqInsert_zero (s : Slots) (newidx prio fuel : Nat) :
    msqInsert s newidx prio fuel 0
      = (setSlot s newidx { s newidx with msg_next := 0 }, newidx) := by
  cases fuel <;> rfl

theorem msqInsert_succ (s : Slots) (newidx prio fuel i : Nat) :
    msqInsert s newidx prio (fuel+1) (i+1)
      = if (s (i+1)).msg_prio < prio then
          (setSlot s newidx { s newidx with msg_next := i+1 }, newidx)
        else
          (setSlot (msqInsert s newidx prio fuel (s (i+1)).msg_next).1 (i+1)
             { (msqInsert s newidx prio fuel (s (i+1)).msg_next).1 (i+1) with
               msg_next := (msqInsert s newidx prio fuel (s (i+1)).msg_next).2 },
           i+1) := rfl


theorem setSlot_same (s : Slots) (i : Nat) (m : msg_hdr) : setSlot s i m i = m := by
  simp [setSlot]

theorem setSlot_other (s : Slots) {j i : Nat} (m : msg_hdr) (h : j ≠ i) :
    setSlot s i m j = s j := by
  simp [setSlot, h]

/-- Effect of the insertion walk on a well-formed chain: the resulting
chain is the source chain with the new index placed before the first
strictly-lower-priority member; slots outside the chain and the new index
are untouched, and no walk write alters a slot's priority, length or
payload. -/
theorem msqInsert_spec (s : Slots) (newidx prio : Nat) (hnz : newidx ≠ 0) :
    ∀ {fuel h : Nat} {l : List Nat}, chainListOpt s fuel h = some l → l.Nodup → newidx ∉ l →
      chainListOpt (msqInsert s newidx prio fuel h).1 (fuel + 1) (msqInsert s newidx prio fuel h).2
        = some (prioInsert s prio newidx l)
      ∧ (∀ j, j ≠ newidx → j ∉ l → (msqInsert s newidx prio fuel h).1 j = s j)
      ∧ ∀ j, ((msqInsert s newidx prio fuel h).1 j).msg_prio = (s j).msg_prio
           ∧ ((msqInsert s newidx prio fuel h).1 j).msg_len = (s j).msg_len
           ∧ ((msqInsert s newidx prio fuel h).1 j).payload = (s j).payload := by
  intro fuel
  induction fuel with
  | zero =>
      intro h l hc hnd hmem
      cases h with
      | zero =>
          rw [chainListOpt_nil] at hc
          cases hc
          rw [msqInsert_zero]
          obtain ⟨k, rfl⟩ : ∃ k, newidx = k + 1 := ⟨newidx - 1, by omega⟩
          refine ⟨?_, ?_, ?_⟩
          · rw [chainListOpt_succ_succ]
            dsimp only
            rw [setSlot_same]
            dsimp only
            rw [chainListOpt_nil]
            simp [prioInsert]
          · intro j hj _
            dsimp only
            exact setSlot_other _ _ hj
          · intro j
            dsimp only
            by_cases hj : j = k + 1
            · subst hj; rw [setSlot_same]; exact ⟨rfl, rfl, rfl⟩
            · rw [setSlot_other _ _ hj]; exact ⟨rfl, rfl, rfl⟩
      | succ i => simp [chainListOpt] at hc
  | succ fuel ih =>
      intro h l hc hnd hmem
      cases h with
      | zero =>
          rw [chainListOpt_nil] at hc
          cases hc
          rw [msqInsert_zero]
          obtain ⟨k, rfl⟩ : ∃ k, newidx = k + 1 := ⟨newidx - 1, by omega⟩
          refine ⟨?_, ?_, ?_⟩
          · rw [chainListOpt_succ_succ]
            dsimp only
            rw [setSlot_same]
            dsimp only
            rw [chainListOpt_nil]
            simp [prioInsert]
          · intro j hj _
            dsimp only
            exact setSlot_other _ _ hj
          · intro j
            dsimp only
            by_cases hj : j = k + 1
            · subst hj; rw [setSlot_same]; exact ⟨rfl, rfl, rfl⟩
            · rw [setSlot_other _ _ hj]; exact ⟨rfl, rfl, rfl⟩
      | succ i =>
          obtain ⟨fuel2, l', hfe, rfl, hc'⟩ :=
            chainListOpt_cons_elim hc (Nat.succ_ne_zero i)
          obtain rfl : fuel2 = fuel := by omega
          have hni : newidx ≠ i + 1 := by
            intro he; exact hmem (he ▸ List.mem_cons_self _ _)
          have hnmem' : newidx ∉ l' := fun hx => hmem (List.mem_cons_of_mem _ hx)
          have hitl : i + 1 ∉ l' := (List.nodup_cons.mp hnd).1
          have hnd' : l'.Nodup := (List.nodup_cons.mp hnd).2
          rw [msqInsert_succ]
          by_cases hcnd : (s (i+1)).msg_prio < prio
          · rw [if_pos hcnd]
            obtain ⟨k, rfl⟩ : ∃ k, newidx = k + 1 := ⟨newidx - 1, by omega⟩
            refine ⟨?_, ?_, ?_⟩
            · rw [chainListOpt_succ_succ]
              dsimp only
              rw [setSlot_same]
              dsimp only
              rw [chainListOpt_setSlot hmem hc]
              simp [prioInsert, hcnd]
            · intro j hj _
              dsimp only
              exact setSlot_other _ _ hj
            · intro j
              dsimp only
              by_cases hj : j = k + 1
              · subst hj; rw [setSlot_same]; exact ⟨rfl, rfl, rfl⟩
              · rw [setSlot_other _ _ hj]; exact ⟨rfl, rfl, rfl⟩
          · rw [if_neg hcnd]
            obtain ⟨ih1, ih2, ih3⟩ := ih hc' hnd' hnmem'
            have hnotmem : (i+1) ∉ prioInsert s prio newidx l' := by
              rw [prioInsert_mem]
              rintro (he | he)
              · exact hni he.symm
              · exact hitl he
            refine ⟨?_, ?_, ?_⟩
            · rw [chainListOpt_succ_succ]
              dsimp only
              rw [setSlot_same]
              dsimp only
              rw [chainListOpt_setSlot hnotmem ih1]
              simp [prioInsert, hcnd]
            · intro j hj hjl
              have hji : j ≠ i + 1 := fun he => hjl (he ▸ List.mem_cons_self _ _)
              have hjl' : j ∉ l' := fun hx => hjl (List.mem_cons_of_mem _ hx)
              dsimp only
              rw [setSlot_other _ _ hji]
              exact ih2 j hj hjl'
            · intro j
              dsimp only
              by_cases hj : j = i + 1
              · subst hj
                rw [setSlot_same]
                exact ih3 (i+1)
              · rw [setSlot_other _ _ hj]
                exact ih3 j

/-- Mapping (priority, payload) over the walk's index-level insertion
gives the spec-level insertion before the first strictly-lower-priority
message. -/
theorem prioInsert_map (sX : Slots) (g g' : Nat → Nat × List Nat) (pr f : Nat) (p : List Nat) :
    ∀ al : List Nat, g' f = (pr, p) → (∀ j ∈ al, g' j = g j) →
      (∀ j ∈ al, (sX j).msg_prio = (g j).1) →
      (prioInsert sX pr f al).map g' = specInsert (pr, p) (al.map g) := by
  intro al
  induction al with
  | nil =>
      intro hgf _ _
      simp [prioInsert, specInsert, hgf]
  | cons i al ih =>
      intro hgf hag hpr
      have hgi : g' i = g i := hag i (List.mem_cons_self _ _)
      have hpi : (sX i).msg_prio = (g i).1 := hpr i (List.mem_cons_self _ _)
      by_cases hc : (sX i).msg_prio < pr
      · have hc' : (g i).1 < pr := hpi ▸ hc
        have hmaps : al.map g' = al.map g :=
          List.map_congr_left (fun j hj => hag j (List.mem_cons_of_mem _ hj))
        simp only [prioInsert, if_pos hc, List.map_cons, specInsert]
        dsimp only
        rw [if_pos hc', hgf, hgi, hmaps]
      · have hc' : ¬ (g i).1 < pr := fun hx => hc (by rw [hpi]; exact hx)
        have ih' := ih hgf (fun j hj => hag j (List.mem_cons_of_mem _ hj))
          (fun j hj => hpr j (List.mem_cons_of_mem _ hj))
        simp only [prioInsert, if_neg hc, List.map_cons, specInsert]
        dsimp only
        rw [if_neg hc', hgi, ih']

/-- A successful allocate-stamp-insert step: with a nonempty free list and
the structural invariant, sendInsert pops the free head f, inserts it into
the active list before the first strictly-lower-priority message, and
preserves the invariant with the live count incremented. -/
theorem sendInsert_ok (st : mq_hdr) (ntf : Bool) (p : List Nat) (pr : Nat)
    (f : Nat) (fl' al : List Nat) (hInv : InvL st (f :: fl') al) :
    ∃ st' al2,
      sendInsert st ntf p pr = SendResult.success st' ntf (st.mq_curmsgs == 0)
      ∧ InvL st' fl' al2
      ∧ st'.mq_curmsgs = st.mq_curmsgs + 1
      ∧ st'.mq_maxmsg = st.mq_maxmsg
      ∧ st'.mq_msgsize = st.mq_msgsize
      ∧ st'.mqh_pid = st.mqh_pid
      ∧ st'.mqh_nwait = st.mqh_nwait
      ∧ al2.map (projMsg st') = specInsert (pr, p) (al.map (projMsg st)) := by
  obtain ⟨hf, ha, hcnt, hlensum, hnd, hbd⟩ := hInv
  have hf' : chainListOpt st.slots st.mq_maxmsg.toNat st.mqh_free = some (f :: fl') := hf
  have ha' : chainListOpt st.slots st.mq_maxmsg.toNat st.mqh_head = some al := ha
  have hfree : st.mqh_free = f := chainListOpt_head hf'
  have hndfl : (f :: fl').Nodup := (List.nodup_append.mp hnd).1
  have hndal : al.Nodup := (List.nodup_append.mp hnd).2.1
  have hdisj : (f :: fl').Disjoint al := (List.nodup_append.mp hnd).2.2
  have hf0 : f ≠ 0 := chainListOpt_ne_zero hf' f (List.mem_cons_self _ _)
  have hfnotal : f ∉ al := fun hx => hdisj (List.mem_cons_self _ _) hx
  have hfnotfl' : f ∉ fl' := (List.nodup_cons.mp hndfl).1
  rw [hfree] at hf'
  obtain ⟨F1, l0, hFeq, hl0, hcfl'⟩ := chainListOpt_cons_elim hf' hf0
  have hleq : l0 = fl' := by
    have h2 := hl0
    simp only [List.cons.injEq] at h2
    exact h2.2.symm
  rw [hleq] at hcfl'
  have hFlen : st.mq_maxmsg.toNat = fl'.length + 1 + al.length := by
    simp only [List.length_cons] at hlensum
    omega
  -- the stamped slot arena
  have hs1al : chainListOpt
      (setSlot st.slots f { st.slots f with msg_prio := pr, msg_len := p.length, payload := p })
      st.mq_maxmsg.toNat st.mqh_head = some al := chainListOpt_setSlot hfnotal ha'
  have hs1al' : chainListOpt
      (setSlot st.slots f { st.slots f with msg_prio := pr, msg_len := p.length, payload := p })
      (st.mq_maxmsg.toNat + 1) st.mqh_head = some al :=
    chainListOpt_mono hs1al (Nat.le_succ _)
  obtain ⟨hspec1, hspec2, hspec3⟩ :=
    msqInsert_spec
      (setSlot st.slots f { st.slots f with msg_prio := pr, msg_len := p.length, payload := p })
      f pr hf0 hs1al' hndal hfnotal
  have hrun : sendInsert st ntf p pr = SendResult.success
      { st with
        slots := (msqInsert
          (setSlot st.slots f { st.slots f with msg_prio := pr, msg_len := p.length, payload := p })
          f pr (st.mq_maxmsg.toNat + 1) st.mqh_head).1
        mqh_free := (st.slots f).msg_next
        mqh_head := (msqInsert
          (setSlot st.slots f { st.slots f with msg_prio := pr, msg_len := p.length, payload := p })
          f pr (st.mq_maxmsg.toNat + 1) st.mqh_head).2
        mq_curmsgs := st.mq_curmsgs + 1 }
      ntf (st.mq_curmsgs == 0) := by
    unfold sendInsert
    rw [hfree, if_neg hf0]
  refine ⟨_, prioInsert
      (setSlot st.slots f { st.slots f with msg_prio := pr, msg_len := p.length, payload := p })
      pr f al, hrun, ?_, rfl, rfl, rfl, rfl, rfl, ?_⟩
  · -- the invariant for the new state
    have hframe : ∀ j ∈ fl',
        (msqInsert
          (setSlot st.slots f { st.slots f with msg_prio := pr, msg_len := p.length, payload := p })
          f pr (st.mq_maxmsg.toNat + 1) st.mqh_head).1 j = st.slots j := by
      intro j hj
      have hjf : j ≠ f := fun he => hfnotfl' (he ▸ hj)
      have hjal : j ∉ al := fun hx => hdisj (List.mem_cons_of_mem _ hj) hx
      rw [hspec2 j hjf hjal]
      exact setSlot_other _ _ hjf
    have hperm : (fl' ++ prioInsert
        (setSlot st.slots f { st.slots f with msg_prio := pr, msg_len := p.length, payload := p })
        pr f al).Perm (f :: (fl' ++ al)) :=
      (List.Perm.append_left fl' (prioInsert_perm _ pr f al)).trans List.perm_middle
    have hndnew : (fl' ++ prioInsert
        (setSlot st.slots f { st.slots f with msg_prio := pr, msg_len := p.length, payload := p })
        pr f al).Nodup := by
      refine hperm.symm.nodup ?_
      simpa using hnd
    refine ⟨?_, ?_, ?_, ?_, hndnew, ?_⟩
    · show chainListOpt _ st.mq_maxmsg.toNat (st.slots f).msg_next = some fl'
      refine chainListOpt_congr hframe (chainListOpt_mono hcfl' (by omega))
    · show chainListOpt _ st.mq_maxmsg.toNat _ = some _
      refine chainListOpt_refuel hspec1 ?_
      rw [prioInsert_length]
      omega
    · show ((prioInsert _ pr f al).length : Int) = st.mq_curmsgs + 1
      rw [prioInsert_length]
      push_cast
      omega
    · show ((fl'.length : Int)) + ((prioInsert _ pr f al).length : Int) = st.mq_maxmsg
      rw [prioInsert_length]
      simp only [List.length_cons] at hlensum
      push_cast
      push_cast at hlensum
      omega
    · intro i hi
      have : i ∈ (f :: fl') ++ al := by
        have hmem := hperm.mem_iff.mp hi
        simpa using hmem
      exact hbd i this
  · -- delivery-order effect
    refine prioInsert_map _ (projMsg st) _ pr f p al ?_ ?_ ?_
    · obtain ⟨h1, _, h3⟩ := hspec3 f
      simp only [projMsg]
      rw [h1, h3, setSlot_same]
    · intro j hj
      have hjf : j ≠ f := fun he => hfnotal (he ▸ hj)
      obtain ⟨h1, _, h3⟩ := hspec3 j
      simp only [projMsg]
      rw [h1, h3, setSlot_other _ _ hjf]
    · intro j hj
      have hjf : j ≠ f := fun he => hfnotal (he ▸ hj)
      rw [setSlot_other _ _ hjf]
      rfl

/-- A successful head pop: with a nonempty active list and the structural
invariant, recvPop removes the head message, pushes its slot onto the free
list, and preserves the invariant with the live count decremented. -/
theorem recvPop_ok (st : mq_hdr) (fl : List Nat) (i : Nat) (al' : List Nat)
    (hInv : InvL st fl (i :: al')) :
    ∃ st',
      recvPop st = RecvResult.success st' ((st.slots i).payload) ((st.slots i).msg_prio)
        (st.mq_curmsgs == st.mq_maxmsg)
      ∧ InvL st' (i :: fl) al'
      ∧ st'.mq_curmsgs = st.mq_curmsgs - 1
      ∧ st'.mq_maxmsg = st.mq_maxmsg
      ∧ st'.mq_msgsize = st.mq_msgsize
      ∧ st'.mqh_pid = st.mqh_pid
      ∧ st'.mqh_nwait = st.mqh_nwait
      ∧ msgsOf st' = some (al'.map (projMsg st)) := by
  obtain ⟨hf, ha, hcnt, hlensum, hnd, hbd⟩ := hInv
  have hf' : chainListOpt st.slots st.mq_maxmsg.toNat st.mqh_free = some fl := hf
  have ha' : chainListOpt st.slots st.mq_maxmsg.toNat st.mqh_head = some (i :: al') := ha
  have hhead : st.mqh_head = i := chainListOpt_head ha'
  have hi0 : i ≠ 0 := chainListOpt_ne_zero ha' i (List.mem_cons_self _ _)
  have hndfl : fl.Nodup := (List.nodup_append.mp hnd).1
  have hndal : (i :: al').Nodup := (List.nodup_append.mp hnd).2.1
  have hdisj : fl.Disjoint (i :: al') := (List.nodup_append.mp hnd).2.2
  have hinotfl : i ∉ fl := fun hx => hdisj hx (List.mem_cons_self _ _)
  have hinotal' : i ∉ al' := (List.nodup_cons.mp hndal).1
  rw [hhead] at ha'
  obtain ⟨F1, l0, hFeq, hl0, hcal'⟩ := chainListOpt_cons_elim ha' hi0
  have hleq : l0 = al' := by
    have h2 := hl0
    simp only [List.cons.injEq] at h2
    exact h2.2.symm
  rw [hleq] at hcal'
  have hFlen : st.mq_maxmsg.toNat = fl.length + 1 + al'.length := by
    simp only [List.length_cons] at hlensum
    omega
  have hrun : recvPop st = RecvResult.success
      { st with
        slots := setSlot st.slots i { st.slots i with msg_next := st.mqh_free }
        mqh_head := (st.slots i).msg_next
        mqh_free := i
        mq_curmsgs := st.mq_curmsgs - 1 }
      ((st.slots i).payload) ((st.slots i).msg_prio) (st.mq_curmsgs == st.mq_maxmsg) := by
    unfold recvPop
    rw [hhead, if_neg hi0]
  have hfreeNew : chainListOpt
      (setSlot st.slots i { st.slots i with msg_next := st.mqh_free })
      st.mq_maxmsg.toNat i = some (i :: fl) := by
    obtain ⟨k, hk⟩ : ∃ k, i = k + 1 := ⟨i - 1, by omega⟩
    obtain ⟨F2, hF2⟩ : ∃ k, st.mq_maxmsg.toNat = k + 1 := ⟨st.mq_maxmsg.toNat - 1, by omega⟩
    rw [hk, hF2, chainListOpt_succ_succ, setSlot_same]
    have hfl2 : chainListOpt
        (setSlot st.slots (k+1) { st.slots (k+1) with msg_next := st.mqh_free })
        F2 st.mqh_free = some fl := by
      refine chainListOpt_setSlot (hk ▸ hinotfl) (chainListOpt_refuel hf' ?_)
      omega
    dsimp only
    rw [hfl2]
    simp [hk]
  have hactNew : chainListOpt
      (setSlot st.slots i { st.slots i with msg_next := st.mqh_free })
      st.mq_maxmsg.toNat (st.slots i).msg_next = some al' := by
    refine chainListOpt_setSlot hinotal' (chainListOpt_refuel hcal' ?_)
    omega
  have hproj : ∀ j, projMsg
      { st with
        slots := setSlot st.slots i { st.slots i with msg_next := st.mqh_free }
        mqh_head := (st.slots i).msg_next
        mqh_free := i
        mq_curmsgs := st.mq_curmsgs - 1 } j = projMsg st j := by
    intro j
    by_cases hj : j = i
    · subst hj
      simp only [projMsg]
      rw [setSlot_same]
    · simp only [projMsg]
      rw [setSlot_other _ _ hj]
  refine ⟨_, hrun, ⟨hfreeNew, hactNew, ?_, ?_, ?_, ?_⟩, rfl, rfl, rfl, rfl, rfl, ?_⟩
  · show ((al'.length : Int)) = st.mq_curmsgs - 1
    simp only [List.length_cons] at hcnt
    push_cast at hcnt ⊢
    omega
  · show ((i :: fl).length : Int) + ((al'.length : Int)) = st.mq_maxmsg
    simp only [List.length_cons] at hlensum ⊢
    push_cast at hlensum ⊢
    omega
  · show ((i :: fl) ++ al').Nodup
    have hperm : (fl ++ i :: al').Perm (i :: (fl ++ al')) := List.perm_middle
    have := hperm.nodup hnd
    simpa using this
  · intro j hj
    have hj' : j ∈ fl ++ i :: al' := by
      have hperm : (fl ++ i :: al').Perm (i :: (fl ++ al')) := List.perm_middle
      refine hperm.symm.mem_iff.mp ?_
      simpa using hj
    exact hbd j hj'
  · have hact2 : actL
        { st with
          slots := setSlot st.slots i { st.slots i with msg_next := st.mqh_free }
          mqh_head := (st.slots i).msg_next
          mqh_free := i
          mq_curmsgs := st.mq_curmsgs - 1 } = some al' := hactNew
    unfold msgsOf
    rw [hact2]
    simp only [Option.map_some']
    congr 1
    exact List.map_congr_left (fun j _ => hproj j)

/-- A send on a queue with a free slot and valid arguments succeeds and
performs exactly the priority insertion, preserving the invariant. -/
theorem _mq_send_ok (st : mq_hdr) (nb : Bool) (p : List Nat) (pr : Nat)
    (f : Nat) (fl' al : List Nat) (hInv : InvL st (f :: fl') al)
    (hpr : pr < MQ_PRIO_MAX) (hlen : (p.length : Int) ≤ st.mq_msgsize) :
    ∃ st' ntf al2,
      _mq_send st nb p pr = SendResult.success st' ntf (st.mq_curmsgs == 0)
      ∧ InvL st' fl' al2
      ∧ st'.mq_curmsgs = st.mq_curmsgs + 1
      ∧ st'.mq_maxmsg = st.mq_maxmsg
      ∧ st'.mq_msgsize = st.mq_msgsize
      ∧ al2.map (projMsg st') = specInsert (pr, p) (al.map (projMsg st)) := by
  have hnotfull : st.mq_curmsgs < st.mq_maxmsg := by
    obtain ⟨_, _, hcnt, hlensum, _, _⟩ := hInv
    simp only [List.length_cons] at hlensum
    push_cast at hcnt hlensum
    omega
  unfold _mq_send
  rw [if_neg (by omega : ¬ MQ_PRIO_MAX ≤ pr)]
  rw [if_neg (not_lt.mpr hlen)]
  by_cases hc0 : st.mq_curmsgs = 0
  · rw [if_pos hc0]
    by_cases hng : st.mqh_pid ≠ 0 ∧ st.mqh_nwait = 0
    · rw [if_pos hng]
      have hInv2 : InvL { st with mqh_pid := 0 } (f :: fl') al := hInv
      obtain ⟨st', al2, hrun, hi, h1, h2, h3, _, _, hmap⟩ :=
        sendInsert_ok { st with mqh_pid := 0 } (st.mqh_event.sigev_notify == SIGEV_SIGNAL)
          p pr f fl' al hInv2
      exact ⟨st', _, al2, hrun, hi, h1, h2, h3, hmap⟩
    · rw [if_neg hng]
      obtain ⟨st', al2, hrun, hi, h1, h2, h3, _, _, hmap⟩ :=
        sendInsert_ok st false p pr f fl' al ⟨hInv.1, hInv.2.1, hInv.2.2.1, hInv.2.2.2.1,
          hInv.2.2.2.2.1, hInv.2.2.2.2.2⟩
      exact ⟨st', _, al2, hrun, hi, h1, h2, h3, hmap⟩
  · rw [if_neg hc0]
    rw [if_neg (by omega : ¬ st.mq_maxmsg ≤ st.mq_curmsgs)]
    obtain ⟨st', al2, hrun, hi, h1, h2, h3, _, _, hmap⟩ :=
      sendInsert_ok st false p pr f fl' al ⟨hInv.1, hInv.2.1, hInv.2.2.1, hInv.2.2.2.1,
        hInv.2.2.2.2.1, hInv.2.2.2.2.2⟩
    exact ⟨st', _, al2, hrun, hi, h1, h2, h3, hmap⟩

/-- A receive on a nonempty queue with a large enough buffer succeeds,
returns the head message, and preserves the invariant; it never consults
the wake oracle. -/
theorem _mq_receive_ok (st : mq_hdr) (nb : Bool) (ml : Nat) (oracle : List WakeEv)
    (fl : List Nat) (i : Nat) (al' : List Nat) (hInv : InvL st fl (i :: al'))
    (hml : st.mq_msgsize ≤ (ml : Int)) :
    ∃ st',
      _mq_receive st nb ml oracle = RecvResult.success st' ((st.slots i).payload)
        ((st.slots i).msg_prio) (st.mq_curmsgs == st.mq_maxmsg)
      ∧ InvL st' (i :: fl) al'
      ∧ st'.mq_curmsgs = st.mq_curmsgs - 1
      ∧ st'.mq_maxmsg = st.mq_maxmsg
      ∧ st'.mq_msgsize = st.mq_msgsize
      ∧ msgsOf st' = some (al'.map (projMsg st)) := by
  have hcne : ¬ st.mq_curmsgs = 0 := by
    have hcnt := hInv.2.2.1
    simp only [List.length_cons] at hcnt
    push_cast at hcnt
    omega
  unfold _mq_receive
  rw [if_neg (not_lt.mpr hml), if_neg hcne]
  obtain ⟨st', hrun, hi, h1, h2, h3, _, _, hmsgs⟩ := recvPop_ok st fl i al' hInv
  exact ⟨st', hrun, hi, h1, h2, h3, hmsgs⟩

/-- Every successful send increments the live count by one and leaves the
configured capacity and message size unchanged. -/
theorem _mq_send_success_shape (st : mq_hdr) (nb : Bool) (p : List Nat) (pr : Nat)
    {st' : mq_hdr} {n sg : Bool} (h : _mq_send st nb p pr = SendResult.success st' n sg) :
    st'.mq_curmsgs = st.mq_curmsgs + 1 ∧ st'.mq_maxmsg = st.mq_maxmsg
      ∧ st'.mq_msgsize = st.mq_msgsize := by
  unfold _mq_send sendInsert at h
  split_ifs at h <;> cases h <;> exact ⟨rfl, rfl, rfl⟩

/-- Every successful single-threaded receive (empty wake oracle) starts
from a nonempty queue, decrements the live count by one, and leaves the
configured capacity and message size unchanged. -/
theorem _mq_receive_success_shape (st : mq_hdr) (nb : Bool) (ml : Nat)
    {st' : mq_hdr} {out : List Nat} {prio : Nat} {sg : Bool}
    (h : _mq_receive st nb ml [] = RecvResult.success st' out prio sg) :
    st'.mq_curmsgs = st.mq_curmsgs - 1 ∧ st.mq_curmsgs ≠ 0
      ∧ st'.mq_maxmsg = st.mq_maxmsg ∧ st'.mq_msgsize = st.mq_msgsize := by
  unfold _mq_receive recvPop at h
  split_ifs at h <;> cases h <;> exact ⟨rfl, by assumption, rfl, rfl⟩

/-- The initialization loop's arena links slots j, j+1, ..., n into one
chain ending at slot n. -/
theorem chain_initSlots (n : Nat) :
    ∀ fuel j : Nat, 1 ≤ j → j ≤ n → j + fuel = n + 1 →
      chainListOpt (initSlots (n : Int)) fuel j = some (List.range' j fuel) := by
  intro fuel
  induction fuel with
  | zero => intro j h1 h2 h3; omega
  | succ fuel ih =>
      intro j h1 h2 h3
      obtain ⟨k, rfl⟩ : ∃ k, j = k + 1 := ⟨j - 1, by omega⟩
      rw [chainListOpt_succ_succ]
      by_cases hlt : k + 1 < n
      · have hnext : (initSlots (n : Int) (k+1)).msg_next = k + 1 + 1 := by
          show (if ((k+1 : Nat) : Int) < (n : Int) then k + 1 + 1 else 0) = k + 1 + 1
          rw [if_pos (by exact_mod_cast hlt)]
        rw [hnext, ih (k+2) (by omega) (by omega) (by omega), Option.map_some',
          List.range'_succ (k+1) fuel 1]
      · have hk1 : k + 1 = n := by omega
        have hf0 : fuel = 0 := by omega
        subst hf0
        have hnext : (initSlots (n : Int) (k+1)).msg_next = 0 := by
          show (if ((k+1 : Nat) : Int) < (n : Int) then k + 1 + 1 else 0) = 0
          rw [if_neg (by exact_mod_cast (by omega : ¬ k + 1 < n))]
        rw [hnext, chainListOpt_nil, Option.map_some']
        rw [List.range'_one]

/-- The header invariant holds right after mq_open's initialization. -/
theorem initState_inv (cap msz : Int) (hcap : 1 ≤ cap) :
    InvL (initState cap msz) (List.range' 1 cap.toNat) [] := by
  obtain ⟨n, rfl⟩ : ∃ n : Nat, cap = (n : Int) :=
    ⟨cap.toNat, (Int.toNat_of_nonneg (by omega)).symm⟩
  have hn1 : 1 ≤ n := by exact_mod_cast hcap
  have htn : ((n : Int)).toNat = n := Int.toNat_natCast n
  refine ⟨?_, ?_, ?_, ?_, ?_, ?_⟩
  · show chainListOpt (initSlots (n : Int)) ((n : Int)).toNat 1 = some (List.range' 1 ((n : Int)).toNat)
    rw [htn]
    exact chain_initSlots n n 1 (by omega) (by omega) (by omega)
  · show chainListOpt (initSlots (n : Int)) ((n : Int)).toNat 0 = some []
    exact chainListOpt_nil _ _
  · show (([] : List Nat).length : Int) = 0
    simp
  · show ((List.range' 1 ((n : Int)).toNat).length : Int) + (([] : List Nat).length : Int) = (n : Int)
    rw [htn, List.length_range' 1 1 n]
    simp
  · show (List.range' 1 ((n : Int)).toNat ++ []).Nodup
    rw [htn]
    simp [List.nodup_range']
  · intro i hi
    rw [htn] at hi
    simp only [List.append_nil, List.mem_range'_1] at hi
    constructor
    · omega
    · show (i : Int) ≤ (n : Int)
      exact_mod_cast (by omega : i ≤ n)

/- ===== single-threaded operation traces ===== -/

/-- One queue operation of a single-threaded trace. -/
inductive MqOp where
  | send (p : List Nat) (pr : Nat)
  | recv

/-- Run one operation in blocking mode with no concurrent wakers; `none`
when the operation does not complete successfully. -/
def stepOp (st : mq_hdr) : MqOp → Option mq_hdr
  | .send p pr => sendStateOf (_mq_send st false p pr)
  | .recv => recvStateOf (_mq_receive st false st.mq_msgsize.toNat [])

/-- Run a trace of operations, all of which must complete successfully. -/
def runTrace : mq_hdr → List MqOp → Option mq_hdr
  | st, [] => some st
  | st, op :: ops =>
      match stepOp st op with
      | some st' => runTrace st' ops
      | none => none

/-- Number of sends in a trace. -/
def countSend : List MqOp → Nat
  | [] => 0
  | .send _ _ :: ops => countSend ops + 1
  | .recv :: ops => countSend ops

/-- Number of receives in a trace. -/
def countRecv : List MqOp → Nat
  | [] => 0
  | .send _ _ :: ops => countRecv ops
  | .recv :: ops => countRecv ops + 1

/-- Live-count accounting along any successful trace: each send adds one,
each receive removes one, and the count never goes negative. -/
theorem runTrace_curmsgs :
    ∀ (ops : List MqOp) (st s : mq_hdr), 0 ≤ st.mq_curmsgs → runTrace st ops = some s →
      s.mq_curmsgs + (countRecv ops : Int) = st.mq_curmsgs + (countSend ops : Int)
        ∧ 0 ≤ s.mq_curmsgs := by
  intro ops
  induction ops with
  | nil =>
      intro st s h0 hrun
      simp only [runTrace] at hrun
      cases hrun
      simp [countSend, countRecv, h0]
  | cons op ops ih =>
      intro st s h0 hrun
      cases op with
      | send p pr =>
          simp only [runTrace, stepOp] at hrun
          cases hsd : _mq_send st false p pr with
          | success st1 n sg =>
              rw [hsd] at hrun
              simp only [sendStateOf] at hrun
              obtain ⟨hc1, _, _⟩ := _mq_send_success_shape st false p pr hsd
              have h1 : 0 ≤ st1.mq_curmsgs := by omega
              obtain ⟨ha, hb⟩ := ih st1 s h1 hrun
              refine ⟨?_, hb⟩
              simp only [countSend, countRecv]
              push_cast
              omega
          | error e st1 => rw [hsd] at hrun; simp only [sendStateOf] at hrun; cases hrun
          | wouldBlockWait st1 => rw [hsd] at hrun; simp only [sendStateOf] at hrun; cases hrun
          | fatalCorruption st1 => rw [hsd] at hrun; simp only [sendStateOf] at hrun; cases hrun
      | recv =>
          simp only [runTrace, stepOp] at hrun
          cases hrc : _mq_receive st false st.mq_msgsize.toNat [] with
          | success st1 out prio sg =>
              rw [hrc] at hrun
              simp only [recvStateOf] at hrun
              obtain ⟨hc1, hne, _, _⟩ := _mq_receive_success_shape st false _ hrc
              have h1 : 0 ≤ st1.mq_curmsgs := by omega
              obtain ⟨ha, hb⟩ := ih st1 s h1 hrun
              refine ⟨?_, hb⟩
              simp only [countSend, countRecv]
              push_cast
              omega
          | error e st1 => rw [hrc] at hrun; simp only [recvStateOf] at hrun; cases hrun
          | stuck st1 => rw [hrc] at hrun; simp only [recvStateOf] at hrun; cases hrun
          | fatalCorruption st1 => rw [hrc] at hrun; simp only [recvStateOf] at hrun; cases hrun

theorem sendInsert_not_fatal (st2 : mq_hdr) (hfne : st2.mqh_free ≠ 0)
    (ntf : Bool) (p : List Nat) (pr : Nat) :
    sendIsFatal (sendInsert st2 ntf p pr) = false := by
  unfold sendInsert
  rw [if_neg hfne]
  rfl

theorem recvPop_not_fatal (st2 : mq_hdr) (hhn : st2.mqh_head ≠ 0) :
    recvIsFatal (recvPop st2) = false := by
  unfold recvPop
  rw [if_neg hhn]
  rfl

/-- C7: an empty free list while the live count is below capacity in send,
and an empty active list while the live count is positive in receive, are
the api_fatal process-terminating corruption diagnostics (modeled as the
fatalCorruption result, distinct from every returned error); under the
structural invariant with a positive capacity, neither fatal branch is
reachable for any send or any single-threaded receive. -/
theorem mq_c7 (st : mq_hdr) (fl al : List Nat) (nb : Bool) (p : List Nat) (pr : Nat) (ml : Nat)
    (hInv : InvL st fl al) (hcap : 1 ≤ st.mq_maxmsg) :
    sendIsFatal (_mq_send st nb p pr) = false
    ∧ recvIsFatal (_mq_receive st nb ml []) = false := by
  have hcnt := hInv.2.2.1
  have hsum := hInv.2.2.2.1
  have key : st.mq_curmsgs < st.mq_maxmsg → st.mqh_free ≠ 0 := by
    intro hlt
    have hne : fl ≠ [] := by
      intro he
      subst he
      simp only [List.length_nil] at hsum
      omega
    obtain ⟨f, fl', rfl⟩ := List.exists_cons_of_ne_nil hne
    have hf' : chainListOpt st.slots st.mq_maxmsg.toNat st.mqh_free = some (f :: fl') := hInv.1
    rw [chainListOpt_head hf']
    exact chainListOpt_ne_zero hf' f (List.mem_cons_self _ _)
  constructor
  · unfold _mq_send
    by_cases h1 : MQ_PRIO_MAX ≤ pr
    · rw [if_pos h1]; rfl
    rw [if_neg h1]
    by_cases h2 : st.mq_msgsize < (p.length : Int)
    · rw [if_pos h2]; rfl
    rw [if_neg h2]
    by_cases h3 : st.mq_curmsgs = 0
    · rw [if_pos h3]
      have hfne : st.mqh_free ≠ 0 := key (by omega)
      by_cases h4 : st.mqh_pid ≠ 0 ∧ st.mqh_nwait = 0
      · rw [if_pos h4]
        have hfne2 : ({ st with mqh_pid := 0 } : mq_hdr).mqh_free ≠ 0 := hfne
        exact sendInsert_not_fatal _ hfne2 _ p pr
      · rw [if_neg h4]
        exact sendInsert_not_fatal _ hfne _ p pr
    rw [if_neg h3]
    by_cases h5 : st.mq_maxmsg ≤ st.mq_curmsgs
    · rw [if_pos h5]
      cases nb <;> rfl
    · rw [if_neg h5]
      exact sendInsert_not_fatal _ (key (by omega)) _ p pr
  · have keyr : st.mq_curmsgs ≠ 0 → st.mqh_head ≠ 0 := by
      intro hne0
      have hne : al ≠ [] := by
        intro he
        subst he
        simp only [List.length_nil] at hcnt
        omega
      obtain ⟨i, al', rfl⟩ := List.exists_cons_of_ne_nil hne
      have ha' : chainListOpt st.slots st.mq_maxmsg.toNat st.mqh_head = some (i :: al') := hInv.2.1
      rw [chainListOpt_head ha']
      exact chainListOpt_ne_zero ha' i (List.mem_cons_self _ _)
    unfold _mq_receive
    by_cases r1 : (ml : Int) < st.mq_msgsize
    · rw [if_pos r1]; rfl
    rw [if_neg r1]
    by_cases r2 : st.mq_curmsgs = 0
    · rw [if_pos r2]
      cases nb <;> rfl
    · rw [if_neg r2]
      exact recvPop_not_fatal _ (keyr r2)

/-- C7 witness: the fatal branches are unreachable on a freshly created
two-slot queue. -/
theorem mq_c7_witness :
    InvL (initState 2 4) [1, 2] [] ∧ (1 : Int) ≤ (initState 2 4).mq_maxmsg ∧
      (sendIsFatal (_mq_send (initState 2 4) false [9] 3) = false
        ∧ recvIsFatal (_mq_receive (initState 2 4) false 4 []) = false) :=
  ⟨by decide, by decide,
    mq_c7 (initState 2 4) [1, 2] [] false [9] 3 4 (by decide) (by decide)⟩

/- ===== claim theorems ===== -/

/-- Run one send in the spec scenario and keep the new state. -/
def sendO (p : List Nat) (pr : Nat) (st : mq_hdr) : Option mq_hdr :=
  sendStateOf (_mq_send st false p pr)

/-- Run one receive with an exactly-message-size buffer and keep the new
state together with the delivered payload and priority. -/
def recvO (st : mq_hdr) : Option (mq_hdr × List Nat × Nat) :=
  match _mq_receive st false st.mq_msgsize.toNat [] with
  | .success st' out prio _ => some (st', out, prio)
  | _ => none

/-- The spec's ordering scenario: send A prio 1, B prio 5, C prio 1 on a
fresh queue, then receive three times, collecting (payload, priority)
pairs (A = 65, B = 66, C = 67). -/
def scenarioC1 : Option (List (List Nat × Nat)) :=
  (sendO [65] 1 (initState 10 4)).bind fun s1 =>
  (sendO [66] 5 s1).bind fun s2 =>
  (sendO [67] 1 s2).bind fun s3 =>
  (recvO s3).bind fun r1 =>
  (recvO r1.1).bind fun r2 =>
  (recvO r2.1).map fun r3 => [r1.2, r2.2, r3.2]

/-- C1: messages are delivered in priority order, FIFO among equal
priorities: a successful send inserts the new message immediately before
the first queued message of strictly lower priority (after all equal or
higher ones), a successful receive removes the head of the active list,
and the scenario send(A,1); send(B,5); send(C,1) followed by three
receives yields B, A, C. -/
theorem mq_c1 :
    (∀ (st : mq_hdr) (nb : Bool) (p : List Nat) (pr : Nat) (f : Nat) (fl' al : List Nat),
      InvL st (f :: fl') al → pr < MQ_PRIO_MAX → (p.length : Int) ≤ st.mq_msgsize →
      ∃ st' ntf sg, _mq_send st nb p pr = SendResult.success st' ntf sg
        ∧ msgsOf st' = some (specInsert (pr, p) (al.map (projMsg st))))
    ∧ (∀ (st : mq_hdr) (nb : Bool) (ml : Nat) (oracle : List WakeEv)
        (fl : List Nat) (i : Nat) (al' : List Nat),
      InvL st fl (i :: al') → st.mq_msgsize ≤ (ml : Int) →
      ∃ st' sg, _mq_receive st nb ml oracle = RecvResult.success st'
          ((st.slots i).payload) ((st.slots i).msg_prio) sg
        ∧ msgsOf st' = some (al'.map (projMsg st)))
    ∧ scenarioC1 = some [([66], 5), ([65], 1), ([67], 1)] := by
  refine ⟨?_, ?_, ?_⟩
  · intro st nb p pr f fl' al hInv hpr hlen
    obtain ⟨st', ntf, al2, hrun, hi, _, _, _, hmap⟩ := _mq_send_ok st nb p pr f fl' al hInv hpr hlen
    refine ⟨st', ntf, _, hrun, ?_⟩
    unfold msgsOf
    rw [hi.2.1]
    simp only [Option.map_some']
    rw [hmap]
  · intro st nb ml oracle fl i al' hInv hml
    obtain ⟨st', hrun, _, _, _, _, hmsgs⟩ := _mq_receive_ok st nb ml oracle fl i al' hInv hml
    exact ⟨st', _, hrun, hmsgs⟩
  · decide

/-- C1 witness: the insertion theorem applied to a fresh two-slot queue. -/
theorem mq_c1_witness :
    InvL (initState 2 8) (1 :: [2]) [] ∧
      (∃ st' ntf sg, _mq_send (initState 2 8) false [5] 0 = SendResult.success st' ntf sg
        ∧ msgsOf st' = some (specInsert (0, [5]) (([] : List Nat).map (projMsg (initState 2 8))))) :=
  ⟨by decide, mq_c1.1 (initState 2 8) false [5] 0 1 [2] [] (by decide) (by decide) (by decide)⟩

/-- C2: the header invariant (0 ≤ live count ≤ capacity, free length plus
active length equals capacity, disjoint well-formed chains) holds after
initialization and is preserved by every successful send (one slot moves
from the free list into the active list, live count + 1) and every
successful receive (the head slot moves onto the free list, live count −
1); along any successful trace of sends and receives from a fresh queue
the live count equals sends minus receives. -/
theorem mq_c2 :
    (∀ cap msz : Int, 1 ≤ cap → InvL (initState cap msz) (List.range' 1 cap.toNat) [])
    ∧ (∀ (st : mq_hdr) (nb : Bool) (p : List Nat) (pr : Nat) (f : Nat) (fl' al : List Nat),
      InvL st (f :: fl') al → pr < MQ_PRIO_MAX → (p.length : Int) ≤ st.mq_msgsize →
      ∃ st' ntf sg al2, _mq_send st nb p pr = SendResult.success st' ntf sg
        ∧ InvL st' fl' al2 ∧ st'.mq_curmsgs = st.mq_curmsgs + 1)
    ∧ (∀ (st : mq_hdr) (nb : Bool) (ml : Nat) (fl : List Nat) (i : Nat) (al' : List Nat),
      InvL st fl (i :: al') → st.mq_msgsize ≤ (ml : Int) →
      ∃ st' out prio sg, _mq_receive st nb ml [] = RecvResult.success st' out prio sg
        ∧ InvL st' (i :: fl) al' ∧ st'.mq_curmsgs = st.mq_curmsgs - 1)
    ∧ (∀ (cap msz : Int) (ops : List MqOp) (s : mq_hdr),
      runTrace (initState cap msz) ops = some s →
      s.mq_curmsgs = (countSend ops : Int) - (countRecv ops : Int)
        ∧ countRecv ops ≤ countSend ops) := by
  refine ⟨initState_inv, ?_, ?_, ?_⟩
  · intro st nb p pr f fl' al hInv hpr hlen
    obtain ⟨st', ntf, al2, hrun, hi, hc, _, _, _⟩ := _mq_send_ok st nb p pr f fl' al hInv hpr hlen
    exact ⟨st', ntf, _, al2, hrun, hi, hc⟩
  · intro st nb ml fl i al' hInv hml
    obtain ⟨st', hrun, hi, hc, _, _, _⟩ := _mq_receive_ok st nb ml [] fl i al' hInv hml
    exact ⟨st', _, _, _, hrun, hi, hc⟩
  · intro cap msz ops s hrun
    have h0 : (0 : Int) ≤ (initState cap msz).mq_curmsgs := le_refl 0
    obtain ⟨ha, hb⟩ := runTrace_curmsgs ops (initState cap msz) s h0 hrun
    have hinit : (initState cap msz).mq_curmsgs = 0 := rfl
    rw [hinit] at ha
    constructor
    · omega
    · omega

/-- C2 witness: the invariant holds for a freshly created queue of
capacity 3. -/
theorem mq_c2_witness :
    (1 : Int) ≤ 3 ∧ InvL (initState 3 16) (List.range' 1 (3 : Int).toNat) [] :=
  ⟨by decide, mq_c2.1 3 16 (by decide)⟩

/-- C3: the failing input evaluated — a blocking receive on the empty
fresh queue whose condition wait returns ETIMEDOUT exits with errno
ETIMEDOUT but leaves the waiting-receiver count at 1 (entry value 0): the
source's error exit from the wait loop skips the mqh_nwait decrement, so
the count is not restored on timeout/interrupt exits. -/
theorem mq_c3 :
    (initState 1 4).mqh_nwait = 0
    ∧ recvErrOf (_mq_receive (initState 1 4) false 4 [WakeEv.wake ETIMEDOUT id]) = some ETIMEDOUT
    ∧ (recvStOf (_mq_receive (initState 1 4) false 4 [WakeEv.wake ETIMEDOUT id])).mqh_nwait = 1 := by
  exact ⟨rfl, rfl, rfl⟩

/-- An empty queue with a SIGEV_SIGNAL registration (pid 7) and one
waiting receiver (mqh_nwait = 1). -/
def c5waiting : mq_hdr :=
  { initState 2 4 with
    mqh_pid := 7
    mqh_nwait := 1
    mqh_event := { sigev_notify := SIGEV_SIGNAL, sigev_signo := 10 } }

/-- An empty queue with a SIGEV_SIGNAL registration (pid 7) and no
waiting receiver. -/
def c5armed : mq_hdr :=
  { initState 2 4 with
    mqh_pid := 7
    mqh_event := { sigev_notify := SIGEV_SIGNAL, sigev_signo := 10 } }

/-- C5 counterexample: a send that takes the live count 0→1 while a
SIGEV_SIGNAL registration is present but a receiver is waiting
(mqh_nwait = 1) delivers no notification and keeps the registration —
against the claim, which promises delivery and clearing on every such
transition. -/
theorem mq_c5_cex :
    c5waiting.mq_curmsgs = 0
    ∧ c5waiting.mqh_pid ≠ 0
    ∧ sendNotifyOf (_mq_send c5waiting false [1] 3) = some false
    ∧ sendPidOf (_mq_send c5waiting false [1] 3) = some 7
    ∧ (sendStateOf (_mq_send c5waiting false [1] 3)).map mq_hdr.mq_curmsgs = some 1 := by
  decide

/-- C5 (amended): when a send takes the live count 0→1 while a
SIGEV_SIGNAL registration is present AND no receiver is waiting
(mqh_nwait = 0), exactly one notification is delivered and the
registration is cleared; once cleared, a further empty-to-nonempty send
delivers nothing and the registration stays empty until re-registered
(single-shot). -/
theorem mq_c5 :
    (∀ (st : mq_hdr) (nb : Bool) (p : List Nat) (pr : Nat),
      st.mq_curmsgs = 0 → st.mqh_pid ≠ 0 → st.mqh_nwait = 0 →
      st.mqh_event.sigev_notify = SIGEV_SIGNAL → st.mqh_free ≠ 0 →
      pr < MQ_PRIO_MAX → (p.length : Int) ≤ st.mq_msgsize →
      sendNotifyOf (_mq_send st nb p pr) = some true
        ∧ sendPidOf (_mq_send st nb p pr) = some 0)
    ∧ (∀ (st : mq_hdr) (nb : Bool) (p : List Nat) (pr : Nat),
      st.mq_curmsgs = 0 → st.mqh_pid = 0 → st.mqh_free ≠ 0 →
      pr < MQ_PRIO_MAX → (p.length : Int) ≤ st.mq_msgsize →
      sendNotifyOf (_mq_send st nb p pr) = some false
        ∧ sendPidOf (_mq_send st nb p pr) = some 0) := by
  constructor
  · intro st nb p pr hc0 hpid hnw hsig hfree hpr hlen
    unfold _mq_send
    rw [if_neg (by omega : ¬ MQ_PRIO_MAX ≤ pr), if_neg (not_lt.mpr hlen), if_pos hc0,
      if_pos ⟨hpid, hnw⟩]
    have hfree2 : ({ st with mqh_pid := 0 } : mq_hdr).mqh_free ≠ 0 := hfree
    unfold sendInsert
    rw [if_neg hfree2]
    simp [sendNotifyOf, sendPidOf, hsig]
  · intro st nb p pr hc0 hpid hfree hpr hlen
    unfold _mq_send
    rw [if_neg (by omega : ¬ MQ_PRIO_MAX ≤ pr), if_neg (not_lt.mpr hlen), if_pos hc0,
      if_neg (by simp [hpid])]
    unfold sendInsert
    rw [if_neg hfree]
    simp [sendNotifyOf, sendPidOf, hpid]

/-- C5 witness: delivery and clearing on a registered empty queue with no
waiting receiver. -/
theorem mq_c5_witness :
    c5armed.mqh_nwait = 0
    ∧ (sendNotifyOf (_mq_send c5armed false [1] 3) = some true
      ∧ sendPidOf (_mq_send c5armed false [1] 3) = some 0) :=
  ⟨by decide, mq_c5.1 c5armed false [1] 3 (by decide) (by decide) (by decide) (by decide)
    (by decide) (by decide) (by decide)⟩

/-- C6: a send on a full queue (live count equals the positive capacity)
through a non-blocking descriptor, with a valid priority and payload size,
returns EAGAIN with the segment state entirely unchanged: no slot is
consumed and no list, counter or registration is touched. -/
theorem mq_c6 (st : mq_hdr) (p : List Nat) (pr : Nat)
    (hpr : pr < MQ_PRIO_MAX) (hlen : (p.length : Int) ≤ st.mq_msgsize)
    (hfull : st.mq_curmsgs = st.mq_maxmsg) (hcap : 1 ≤ st.mq_maxmsg) :
    _mq_send st true p pr = SendResult.error EAGAIN st := by
  unfold _mq_send
  rw [if_neg (by omega : ¬ MQ_PRIO_MAX ≤ pr), if_neg (not_lt.mpr hlen),
    if_neg (by omega : ¬ st.mq_curmsgs = 0),
    if_pos (by omega : st.mq_maxmsg ≤ st.mq_curmsgs)]
  rfl

/-- C6 witness: EAGAIN without mutation on a full one-slot queue. -/
theorem mq_c6_witness :
    ({ initState 1 4 with mq_curmsgs := 1 } : mq_hdr).mq_curmsgs
        = ({ initState 1 4 with mq_curmsgs := 1 } : mq_hdr).mq_maxmsg
    ∧ _mq_send { initState 1 4 with mq_curmsgs := 1 } true [7] 0
        = SendResult.error EAGAIN { initState 1 4 with mq_curmsgs := 1 } :=
  ⟨by decide, mq_c6 _ [7] 0 (by decide) (by decide) (by decide) (by decide)⟩

/-- C4 counterexample: when the advisory lock step of the flush fails,
_sem_close reports -1 but does NOT release the in-memory semaphore
(semaphore::close is skipped); only the lock release and fd close run —
against the claim that the object is released regardless. -/
theorem sem_c4_cex :
    (_sem_close true false true true true 0).ret = -1
    ∧ (_sem_close true false true true true 0).semClosed = false
    ∧ (_sem_close true false true true true 0).fdClosed = true := by
  decide

/-- C4 (amended): for every close of a named semaphore, the live value is
flushed back to the persisted record under the advisory lock; if the
flush fails (lock, seek or write error) the failure is reported (-1) and
the in-memory semaphore object is NOT released — only the advisory lock
is dropped and the file descriptor closed; on a successful flush with
do_close the in-memory object is released. -/
theorem sem_c4 :
    (∀ (lockOk seekOk writeOk do_close : Bool) (closeRes : Int),
      (lockOk && seekOk && writeOk) = false →
      _sem_close true lockOk seekOk writeOk do_close closeRes =
        { ret := -1, semClosed := false, unlocked := true, fdClosed := true })
    ∧ (∀ closeRes : Int,
      _sem_close true true true true true closeRes =
        { ret := closeRes, semClosed := true, unlocked := true, fdClosed := true }) := by
  constructor
  · intro lockOk seekOk writeOk do_close closeRes hflush
    unfold _sem_close
    simp [hflush]
  · intro closeRes
    rfl

/-- C4 witness: a failing lock step reports the error with the object
left open but the descriptor closed. -/
theorem sem_c4_witness :
    ((false && true && true) = false)
    ∧ _sem_close true false true true true 0 =
        { ret := -1, semClosed := false, unlocked := true, fdClosed := true } :=
  ⟨by decide, sem_c4.1 false true true true 0 (by decide)⟩

/-- C8: a timed condition wait given a malformed deadline returns EINVAL
up front: no timer is created, the condition event is not reset, and the
mutex is not released — for every environment outcome of the later
fallible steps (the embedded ipc_cond_timedwait never touches the queue
header at all). -/
theorem mq_c8 (ts : timespec) (timerErr unlockErr waitRes relockRes : Nat)
    (hbad : ¬ valid_timespec ts) :
    ipc_cond_timedwait (some ts) timerErr unlockErr waitRes relockRes =
      { ret := EINVAL, timerCreated := false, eventReset := false, mutexReleased := false } := by
  unfold ipc_cond_timedwait
  dsimp only
  rw [if_neg hbad]

/-- C8 witness: a negative nanosecond deadline is rejected untouched. -/
theorem mq_c8_witness :
    ¬ valid_timespec { tv_sec := 0, tv_nsec := -1 }
    ∧ ipc_cond_timedwait (some { tv_sec := 0, tv_nsec := -1 }) 0 0 0 0 =
        { ret := EINVAL, timerCreated := false, eventReset := false, mutexReleased := false } :=
  ⟨by decide, mq_c8 _ 0 0 0 0 (by decide)⟩

/-- C9: mq_setattr changes only the descriptor's O_NONBLOCK bit (bit 14):
the queue header (capacity, message size, live count) is returned
untouched, every other flag bit is preserved, the new blocking bit equals
the requested one, a subsequent mq_getattr observes the new flags with
the unchanged per-queue attributes, and the optional out-parameter
receives the snapshot from before the change. -/
theorem mq_c9 (st : mq_hdr) (mqi_flags : Nat) (mqstat : mq_attr) (w : Bool)
    (hf : mqi_flags < 2 ^ 32) :
    (mq_setattr st mqi_flags mqstat w).1 = st
    ∧ (∀ k, k ≠ 14 →
        ((mq_setattr st mqi_flags mqstat w).2.1).testBit k = mqi_flags.testBit k)
    ∧ ((mq_setattr st mqi_flags mqstat w).2.1).testBit 14 = mqstat.mq_flags.testBit 14
    ∧ mq_getattr (mq_setattr st mqi_flags mqstat w).1 (mq_setattr st mqi_flags mqstat w).2.1
        = { mq_flags := (mq_setattr st mqi_flags mqstat w).2.1, mq_maxmsg := st.mq_maxmsg,
            mq_msgsize := st.mq_msgsize, mq_curmsgs := st.mq_curmsgs }
    ∧ (mq_setattr st mqi_flags mqstat true).2.2 = some (mq_getattr st mqi_flags) := by
  have hsa : (mq_setattr st mqi_flags mqstat w).2.1 =
      if mqstat.mq_flags &&& O_NONBLOCK ≠ 0 then mqi_flags ||| O_NONBLOCK
      else mqi_flags &&& (4294967295 ^^^ O_NONBLOCK) := rfl
  have hONB : O_NONBLOCK = 2 ^ 14 := by norm_num [O_NONBLOCK]
  have hMM : (4294967295 : Nat) = 2 ^ 32 - 1 := by norm_num
  refine ⟨rfl, ?_, ?_, rfl, rfl⟩
  · intro k hk
    have hb : O_NONBLOCK.testBit k = false := by
      rw [hONB]
      exact Nat.testBit_two_pow_of_ne (fun he => hk he.symm)
    rw [hsa]
    by_cases hc : mqstat.mq_flags &&& O_NONBLOCK ≠ 0
    · rw [if_pos hc, Nat.testBit_lor, hb, Bool.or_false]
    · rw [if_neg hc, Nat.testBit_land, Nat.testBit_xor, hMM, Nat.testBit_two_pow_sub_one, hb]
      rcases Nat.lt_or_ge k 32 with h32 | h32
      · have hd : decide (k < 32) = true := by simp [h32]
        rw [hd]
        simp
      · have hd : decide (k < 32) = false := by simp; omega
        have hf0 : mqi_flags.testBit k = false :=
          Nat.testBit_eq_false_of_lt
            (lt_of_lt_of_le hf (Nat.pow_le_pow_right (by omega) h32))
        rw [hd, hf0]
        simp
  · rw [hsa]
    by_cases hc : mqstat.mq_flags &&& O_NONBLOCK ≠ 0
    · rw [if_pos hc, Nat.testBit_lor, hONB]
      have h1 : (2 ^ 14).testBit 14 = true := by decide
      rw [h1, Bool.or_true]
      have hcc := hc
      rw [hONB, Nat.and_two_pow] at hcc
      cases h : mqstat.mq_flags.testBit 14
      · rw [h] at hcc; simp at hcc
      · rfl
    · rw [if_neg hc, Nat.testBit_land, Nat.testBit_xor, hMM, Nat.testBit_two_pow_sub_one, hONB]
      have h1 : (2 ^ 14).testBit 14 = true := by decide
      rw [h1]
      have hd : decide ((14 : Nat) < 32) = true := by decide
      rw [hd]
      have hc0 : mqstat.mq_flags &&& O_NONBLOCK = 0 := not_not.mp hc
      rw [hONB, Nat.and_two_pow] at hc0
      cases h : mqstat.mq_flags.testBit 14
      · simp
      · rw [h] at hc0; simp at hc0

/-- C9 witness: requesting O_NONBLOCK on flags 2 sets bit 14, keeps bit 1,
and the header is untouched. -/
theorem mq_c9_witness :
    (2 : Nat) < 2 ^ 32
    ∧ ((mq_setattr (initState 5 16) 2
        { mq_flags := 16384, mq_maxmsg := 0, mq_msgsize := 0, mq_curmsgs := 0 }
        true).2.1).testBit 1 = (2 : Nat).testBit 1 :=
  ⟨by decide,
    (mq_c9 (initState 5 16) 2
      { mq_flags := 16384, mq_maxmsg := 0, mq_msgsize := 0, mq_curmsgs := 0 }
      true (by decide)).2.1 1 (by decide)⟩

/-- C10: creating a queue with a NULL attribute pointer uses the default
attributes mq_maxmsg = 10, mq_msgsize = 8192 and never range-checks them;
caller-supplied attributes are range-checked (capacity 1..32768, message
size 1..1048576), rejected with EINVAL when out of range and used as
given when in range. -/
theorem mq_c10 :
    createdAttrs none = some (10, 8192)
    ∧ (∀ a : mq_attr, (a.mq_maxmsg ≤ 0 ∨ 32768 < a.mq_maxmsg
        ∨ a.mq_msgsize ≤ 0 ∨ 1048576 < a.mq_msgsize) →
      mq_open_create (some a) = Except.error EINVAL)
    ∧ (∀ a : mq_attr, ¬ (a.mq_maxmsg ≤ 0 ∨ 32768 < a.mq_maxmsg
        ∨ a.mq_msgsize ≤ 0 ∨ 1048576 < a.mq_msgsize) →
      createdAttrs (some a) = some (a.mq_maxmsg, a.mq_msgsize)) := by
  refine ⟨rfl, ?_, ?_⟩
  · intro a h
    unfold mq_open_create
    dsimp only
    rw [if_pos h]
  · intro a h
    unfold createdAttrs mq_open_create
    dsimp only
    rw [if_neg h]
    rfl

/-- C10 witness: a zero capacity is rejected with EINVAL. -/
theorem mq_c10_witness :
    (({ mq_flags := 0, mq_maxmsg := 0, mq_msgsize := 8, mq_curmsgs := 0 } : mq_attr).mq_maxmsg ≤ 0
      ∨ 32768 < ({ mq_flags := 0, mq_maxmsg := 0, mq_msgsize := 8, mq_curmsgs := 0 } : mq_attr).mq_maxmsg
      ∨ ({ mq_flags := 0, mq_maxmsg := 0, mq_msgsize := 8, mq_curmsgs := 0 } : mq_attr).mq_msgsize ≤ 0
      ∨ 1048576 < ({ mq_flags := 0, mq_maxmsg := 0, mq_msgsize := 8, mq_curmsgs := 0 } : mq_attr).mq_msgsize)
    ∧ mq_open_create (some { mq_flags := 0, mq_maxmsg := 0, mq_msgsize := 8, mq_curmsgs := 0 })
        = Except.error EINVAL :=
  ⟨by decide, mq_c10.2.1 _ (by decide)⟩
